import Mathlib

/-!
Verification of the progressive chunked ray tracer.

The Rust sources (buffer.rs, tracer.rs, hit.rs) are embedded shallowly:
machine floats (f32) are modelled by the rationals, the external gobs
types (Color, Camera, Light, Timer, RngPool, ImageExtent2D) are modelled
by records carrying exactly the fields the tracer reads, and the
nondeterministic shuffles of rand::thread_rng are modelled by an explicit
shuffle parameter that theorems constrain to be a permutation.
-/

namespace RT

/-- External gobs type ImageExtent2D: a width/height pair with
size() = width * height. -/
structure ImageExtent2D where
  width : Nat
  height : Nat
deriving DecidableEq, Repr

/-- Pixel count of an extent, as used by ImageBuffer::reset and the
strategies (extent.size()). -/
def ImageExtent2D.size (e : ImageExtent2D) : Nat := e.width * e.height

/-- External gobs Color, modelled as four rational channels. -/
structure Color where
  r : ℚ
  g : ℚ
  b : ℚ
  a : ℚ
deriving DecidableEq, Repr

/-- Color::BLACK. -/
def Color.BLACK : Color := ⟨0, 0, 0, 1⟩

instance : Add Color :=
  ⟨fun c d => ⟨c.r + d.r, c.g + d.g, c.b + d.b, c.a + d.a⟩⟩

instance : HMul Color ℚ Color :=
  ⟨fun c q => ⟨c.r * q, c.g * q, c.b * q, c.a * q⟩⟩

instance : HDiv Color ℚ Color :=
  ⟨fun c q => ⟨c.r / q, c.g / q, c.b / q, c.a / q⟩⟩

/-- Vector type (glam Vec3), modelled over the rationals. -/
structure Vec3 where
  x : ℚ
  y : ℚ
  z : ℚ
deriving DecidableEq, Repr

instance : Sub Vec3 :=
  ⟨fun u v => ⟨u.x - v.x, u.y - v.y, u.z - v.z⟩⟩

/-- Dot product on Vec3. -/
def Vec3.dot (u v : Vec3) : ℚ := u.x * v.x + u.y * v.y + u.z * v.z

/-- Scalar multiple of a Vec3. -/
def Vec3.smul (q : ℚ) (v : Vec3) : Vec3 := ⟨q * v.x, q * v.y, q * v.z⟩

/-- Ray: origin plus direction (not necessarily unit length). -/
structure Ray where
  origin : Vec3
  direction : Vec3

/-- Ray::new. -/
def Ray.new (origin direction : Vec3) : Ray := ⟨origin, direction⟩

/-- Modelled from the spec: Ray::reflect lives in a source file that is
not part of src/ (only tracer.rs calls it); the spec defines it as the
ray from the given point with direction d - 2 * dot(d, n) * n. -/
def Ray.reflect (ray : Ray) (point normal : Vec3) : Ray :=
  ⟨point, ray.direction - Vec3.smul (2 * Vec3.dot ray.direction normal) normal⟩

/-- Hit record from hit.rs. -/
structure Hit where
  distance : ℚ
  position : Vec3
  normal : Vec3
  color : Color
  reflect : ℚ
deriving DecidableEq, Repr

/-- The Hitable trait of hit.rs: a model answers the full intersection
query and the cheaper distance-only query. The name method is omitted
(cast never reads it). -/
structure Hitable where
  hit : Ray → ℚ → ℚ → Option Hit
  hit_distance : Ray → ℚ → ℚ → Option ℚ

/-- External gobs Camera, reduced to the fields the tracer reads:
position, mode.near() and mode.far(). -/
structure Camera where
  position : Vec3
  near : ℚ
  far : ℚ

/-- External gobs Light, reduced to the field cast reads. -/
structure Light where
  position : Vec3

/-- Randomness of rand::thread_rng and gobs RngPool, made explicit:
shuffleN shuffles pixel index lists (RandomChunk::reset), shuffleB
shuffles tile lists (BoxChunk::reset), and poolVals len is the jitter
stream of an RngPool built for a chunk of the given length. -/
structure Rng where
  shuffleN : List Nat → List Nat
  shuffleB : List (List Nat) → List (List Nat)
  poolVals : Nat → Nat → ℚ

/-- A lawful rng source only permutes the list it shuffles. -/
def Rng.Lawful (rng : Rng) : Prop :=
  (∀ l, (rng.shuffleN l).Perm l) ∧ (∀ l, (rng.shuffleB l).Perm l)

/-- The identity rng source: shuffles are the identity, jitter is 0. -/
def idRng : Rng := ⟨id, id, fun _ _ => 0⟩

theorem idRng_lawful : idRng.Lawful :=
  ⟨fun _ => List.Perm.refl _, fun _ => List.Perm.refl _⟩

/-- External gobs RngPool: a jitter stream with a cursor. -/
structure RngPool where
  vals : Nat → ℚ
  pos : Nat

/-- RngPool::new(len), drawing from the ambient rng source. -/
def RngPool.new (rng : Rng) (len : Nat) : RngPool := ⟨rng.poolVals len, 0⟩

/-- RngPool::next, returning the drawn value and the advanced pool. -/
def RngPool.next (p : RngPool) : ℚ × RngPool := (p.vals p.pos, ⟨p.vals, p.pos + 1⟩)

/-- RandomChunk state: the undealt shuffled pixel indices. -/
structure RandomChunk where
  draw_indexes : List Nat
deriving DecidableEq, Repr

/-- RandomChunk::reset: refill with 0..size and shuffle. -/
def RandomChunk.reset (extent : ImageExtent2D) (rng : Rng) : RandomChunk :=
  ⟨rng.shuffleN (List.range extent.size)⟩

/-- RandomChunk::is_complete. -/
def RandomChunk.is_complete (s : RandomChunk) : Bool := s.draw_indexes.isEmpty

/-- RandomChunk::get_chunk: drain the first min(20000, len) indices. -/
def RandomChunk.get_chunk (s : RandomChunk) : List Nat × RandomChunk :=
  (s.draw_indexes.take (min 20000 s.draw_indexes.length),
   ⟨s.draw_indexes.drop (min 20000 s.draw_indexes.length)⟩)

/-- LineChunk state: the undealt pixel indices in buffer order. -/
structure LineChunk where
  draw_indexes : List Nat
deriving DecidableEq, Repr

/-- LineChunk::reset: refill with 0..size, unshuffled. -/
def LineChunk.reset (extent : ImageExtent2D) : LineChunk :=
  ⟨List.range extent.size⟩

/-- LineChunk::is_complete. -/
def LineChunk.is_complete (s : LineChunk) : Bool := s.draw_indexes.isEmpty

/-- LineChunk::get_chunk: drain the first min(1920, len) indices. -/
def LineChunk.get_chunk (s : LineChunk) : List Nat × LineChunk :=
  (s.draw_indexes.take (min 1920 s.draw_indexes.length),
   ⟨s.draw_indexes.drop (min 1920 s.draw_indexes.length)⟩)

/-- Ceiling division as u32::div_ceil. -/
def divCeil (a b : Nat) : Nat := (a + b - 1) / b

/-- BoxChunk state: tile-grid dimensions fixed at construction plus the
undealt tiles. -/
structure BoxChunk where
  cols : Nat
  rows : Nat
  draw_boxes : List (List Nat)
deriving DecidableEq, Repr

/-- BoxChunk::new: tile counts are div_ceil of the extent by the
128 x 128 tile size; no tiles are dealt yet. -/
def BoxChunk.new (extent : ImageExtent2D) : BoxChunk :=
  ⟨divCeil extent.width 128, divCeil extent.height 128, []⟩

/-- One tile of BoxChunk::reset: column i, row j; the x loop is outer and
the y loop inner, each clipped to the extent, pushing x + y * width. -/
def boxTile (extent : ImageExtent2D) (i j : Nat) : List Nat :=
  (List.range' (i * 128) (min (i * 128 + 128) extent.width - i * 128)).flatMap
    (fun x =>
      (List.range' (j * 128) (min (j * 128 + 128) extent.height - j * 128)).map
        (fun y => x + y * extent.width))

/-- The tile list BoxChunk::reset builds before shuffling: row-major over
the tile grid (j outer, i inner). -/
def boxesFor (cols rows : Nat) (extent : ImageExtent2D) : List (List Nat) :=
  (List.range rows).flatMap (fun j => (List.range cols).map (fun i => boxTile extent i j))

/-- BoxChunk::reset: rebuild all tiles for the stored grid and shuffle. -/
def BoxChunk.reset (s : BoxChunk) (extent : ImageExtent2D) (rng : Rng) : BoxChunk :=
  ⟨s.cols, s.rows, rng.shuffleB (boxesFor s.cols s.rows extent)⟩

/-- BoxChunk::is_complete. -/
def BoxChunk.is_complete (s : BoxChunk) : Bool := s.draw_boxes.isEmpty

/-- BoxChunk::get_chunk pops the last tile; the Vec::pop unwrap panics on
an empty tile list, modelled as none. -/
def BoxChunk.get_chunk (s : BoxChunk) : Option (List Nat × BoxChunk) :=
  match s.draw_boxes.getLast? with
  | none => none
  | some c => some (c, ⟨s.cols, s.rows, s.draw_boxes.dropLast⟩)

/-- The ChunkStrategy selector enum. -/
inductive ChunkStrategy where
  | RANDOM
  | LINE
  | BOX
deriving DecidableEq, Repr

/-- The ChunkStrategyData tagged union holding one strategy state. -/
inductive ChunkStrategyData where
  | RANDOM : RandomChunk → ChunkStrategyData
  | LINE : LineChunk → ChunkStrategyData
  | BOX : BoxChunk → ChunkStrategyData
deriving DecidableEq, Repr

/-- ChunkStrategy::new dispatches construction on the selector. -/
def ChunkStrategy.new (strategy : ChunkStrategy) (extent : ImageExtent2D) :
    ChunkStrategyData :=
  match strategy with
  | ChunkStrategy.RANDOM => ChunkStrategyData.RANDOM ⟨[]⟩
  | ChunkStrategy.LINE => ChunkStrategyData.LINE ⟨[]⟩
  | ChunkStrategy.BOX => ChunkStrategyData.BOX (BoxChunk.new extent)

/-- ChunkStrategyData::reset dispatch. -/
def ChunkStrategyData.reset (s : ChunkStrategyData) (extent : ImageExtent2D)
    (rng : Rng) : ChunkStrategyData :=
  match s with
  | ChunkStrategyData.RANDOM _ => ChunkStrategyData.RANDOM (RandomChunk.reset extent rng)
  | ChunkStrategyData.LINE _ => ChunkStrategyData.LINE (LineChunk.reset extent)
  | ChunkStrategyData.BOX b => ChunkStrategyData.BOX (b.reset extent rng)

/-- ChunkStrategyData::is_complete dispatch. -/
def ChunkStrategyData.is_complete (s : ChunkStrategyData) : Bool :=
  match s with
  | ChunkStrategyData.RANDOM b => b.is_complete
  | ChunkStrategyData.LINE b => b.is_complete
  | ChunkStrategyData.BOX b => b.is_complete

/-- ChunkStrategyData::get_chunk dispatch; only the BOX variant can fail. -/
def ChunkStrategyData.get_chunk (s : ChunkStrategyData) :
    Option (List Nat × ChunkStrategyData) :=
  match s with
  | ChunkStrategyData.RANDOM b =>
      some (b.get_chunk.1, ChunkStrategyData.RANDOM b.get_chunk.2)
  | ChunkStrategyData.LINE b =>
      some (b.get_chunk.1, ChunkStrategyData.LINE b.get_chunk.2)
  | ChunkStrategyData.BOX b =>
      (b.get_chunk).map (fun p => (p.1, ChunkStrategyData.BOX p.2))

/-- Number of undealt work units, the termination measure for draining. -/
def ChunkStrategyData.pending (s : ChunkStrategyData) : Nat :=
  match s with
  | ChunkStrategyData.RANDOM b => b.draw_indexes.length
  | ChunkStrategyData.LINE b => b.draw_indexes.length
  | ChunkStrategyData.BOX b => b.draw_boxes.length

/-- Repeatedly call get_chunk until is_complete, collecting the chunks;
fuel-indexed so that the recursion is structural. -/
def drainAux : Nat → ChunkStrategyData → List (List Nat)
  | 0, _ => []
  | fuel + 1, s =>
    if s.is_complete then []
    else
      match s.get_chunk with
      | none => []
      | some (c, s1) => c :: drainAux fuel s1

/-- Full drain of a strategy: enough fuel to exhaust all pending work. -/
def ChunkStrategyData.drain (s : ChunkStrategyData) : List (List Nat) :=
  drainAux s.pending s

/-- ImageBuffer from buffer.rs: extent, pixel array, strategy state. -/
structure ImageBuffer where
  extent : ImageExtent2D
  framebuffer : List Color
  strategy : ChunkStrategyData

/-- ImageBuffer::new: empty framebuffer, strategy built for the extent. -/
def ImageBuffer.new (extent : ImageExtent2D) (strategy : ChunkStrategy) : ImageBuffer :=
  ⟨extent, [], ChunkStrategy.new strategy extent⟩

/-- ImageBuffer::reset: every pixel becomes opaque black and the owned
strategy is reset for the stored extent. -/
def ImageBuffer.reset (b : ImageBuffer) (rng : Rng) : ImageBuffer :=
  ⟨b.extent, List.replicate b.extent.size Color.BLACK, b.strategy.reset b.extent rng⟩

/-- Modelled from the spec: the per-color byte conversion is the external
gobs Into u8x4 instance; §6 states four unsigned 8-bit channels R,G,B,A. -/
def colorBytes (c : Color) : List Nat :=
  [(max 0 (min 255 ⌊c.r * 255⌋)).toNat, (max 0 (min 255 ⌊c.g * 255⌋)).toNat,
   (max 0 (min 255 ⌊c.b * 255⌋)).toNat, (max 0 (min 255 ⌊c.a * 255⌋)).toNat]

/-- ImageBuffer::bytes: flat_map of the 4-byte conversion over the pixels. -/
def ImageBuffer.bytes (b : ImageBuffer) : List Nat :=
  b.framebuffer.flatMap colorBytes

/-- ImageBuffer::update_pixel: unconditional overwrite at idx. -/
def ImageBuffer.update_pixel (b : ImageBuffer) (idx : Nat) (c : Color) : ImageBuffer :=
  ⟨b.extent, b.framebuffer.set idx c, b.strategy⟩

/-- ImageBuffer::is_complete delegates to the strategy. -/
def ImageBuffer.is_complete (b : ImageBuffer) : Bool := b.strategy.is_complete

/-- ImageBuffer::get_chunk delegates to the strategy. -/
def ImageBuffer.get_chunk (b : ImageBuffer) : Option (List Nat × ImageBuffer) :=
  (b.strategy.get_chunk).map (fun p => (p.1, ⟨b.extent, b.framebuffer, p.2⟩))

/-- Tracer from tracer.rs. The external Timer is modelled by a counter
that Timer::reset increments, so that restarts are observable. -/
structure Tracer where
  image_buffer : ImageBuffer
  models : List Hitable
  lights : List Light
  camera : Camera
  background : Ray → Color
  n_rays : Nat
  n_reflects : Nat
  n_threads : Nat
  changed : Bool
  timer : Nat

/-- Tracer::extent. -/
def Tracer.extent (t : Tracer) : ImageExtent2D := t.image_buffer.extent

/-- Tracer::framebuffer. -/
def Tracer.framebuffer (t : Tracer) : List Color := t.image_buffer.framebuffer

/-- Tracer::bytes. -/
def Tracer.bytes (t : Tracer) : List Nat := t.image_buffer.bytes

/-- Tracer::reset delegates to the image buffer. -/
def Tracer.reset (t : Tracer) (rng : Rng) : Tracer :=
  { t with image_buffer := t.image_buffer.reset rng }

/-- The candidate hits of Tracer::cast: every model is queried with the
camera near/far range and misses are dropped (filter_map). -/
def Tracer.hitCandidates (t : Tracer) (ray : Ray) : List Hit :=
  t.models.filterMap (fun m => m.hit ray t.camera.near t.camera.far)

/-- The reduce step of Iterator::min_by: the accumulator is replaced only
when the new element is strictly smaller, so the first minimum survives. -/
def foldMin (acc : Hit) : List Hit → Hit
  | [] => acc
  | x :: rest => foldMin (if x.distance < acc.distance then x else acc) rest

/-- Iterator::min_by over the candidate hits, comparing distances. -/
def minByDistance (l : List Hit) : Option Hit :=
  match l with
  | [] => none
  | a :: rest => some (foldMin a rest)

/-- The shadow loop of Tracer::cast: walk the lights in order; the first
light with no blocking model returns the blend unscaled, and falling off
the end of the loop scales the blend by 0.5. -/
def Tracer.shadeLoop (t : Tracer) (pos : Vec3) (blend : Color) : List Light → Color
  | [] => blend * (1 / 2 : ℚ)
  | light :: rest =>
    match t.models.find? (fun m =>
        (m.hit_distance (Ray.new pos (light.position - pos)) t.camera.near
          t.camera.far).isSome) with
    | none => blend
    | some _ => t.shadeLoop pos blend rest

/-- Tracer::cast, structurally recursive on the bounce budget. -/
def Tracer.cast (t : Tracer) : Nat → Ray → Color
  | 0, _ => Color.BLACK
  | limit + 1, ray =>
    match minByDistance (t.hitCandidates ray) with
    | some h =>
      let reflect_color := t.cast limit (ray.reflect h.position h.normal)
      t.shadeLoop h.position (h.color * (1 - h.reflect) + reflect_color * h.reflect)
        t.lights
    | none => t.background ray

/-- The sampling loop of Tracer::compute_pixel: n_rays jittered samples
accumulated, threading the rng pool (x drawn before y). -/
def Tracer.sampleLoop (t : Tracer) (i j : Nat) : Nat → Color → RngPool → Color × RngPool
  | 0, c, pool => (c, pool)
  | n + 1, c, pool =>
    let r1 := pool.next
    let x : ℚ := -2 + 4 * (((j : ℚ) + r1.1) / (t.image_buffer.extent.width : ℚ))
    let r2 := r1.2.next
    let y : ℚ := 1 - 2 * (((i : ℚ) + r2.1) / (t.image_buffer.extent.height : ℚ))
    let ray := Ray.new t.camera.position ⟨x, y, 1⟩
    t.sampleLoop i j n (c + t.cast t.n_reflects ray) r2.2

/-- Tracer::compute_pixel: row i and column j from the flat index, sample
n_rays times, average. -/
def Tracer.compute_pixel (t : Tracer) (idx : Nat) (pool : RngPool) : Color × RngPool :=
  let i := idx / t.image_buffer.extent.width
  let j := idx % t.image_buffer.extent.width
  let s := t.sampleLoop i j t.n_rays Color.BLACK pool
  (s.1 / (t.n_rays : ℚ), s.2)

/-- Tracer::compute_chunk: one fresh rng pool per chunk, one pixel color
per index. -/
def Tracer.compute_chunk (t : Tracer) (chunk : List Nat) (rng : Rng) :
    List (Nat × Color) :=
  (chunk.foldl
    (fun acc idx =>
      let r := t.compute_pixel idx acc.2
      (acc.1 ++ [(idx, r.1)], r.2))
    (([] : List (Nat × Color)), RngPool.new rng chunk.length)).1

/-- The chunk request loop of Tracer::update_buffer: n_threads iterations
of filter_map, each skipping when the buffer is complete and otherwise
taking one chunk; a failed get_chunk (BOX pop on empty) aborts as none. -/
def requestChunks : Nat → ImageBuffer → Option (List (List Nat) × ImageBuffer)
  | 0, b => some ([], b)
  | n + 1, b =>
    if b.is_complete then requestChunks n b
    else
      match b.get_chunk with
      | none => none
      | some (c, b1) => (requestChunks n b1).map (fun p => (c :: p.1, p.2))

/-- Tracer::update_buffer: request up to n_threads chunks, compute each
chunk from the immutable scene, then apply all results to the buffer. -/
def Tracer.update_buffer (t : Tracer) (rng : Rng) : Option Tracer :=
  (requestChunks t.n_threads t.image_buffer).map (fun p =>
    let results := p.1.map (fun chunk => t.compute_chunk chunk rng)
    let b2 := results.foldl
      (fun b result => result.foldl (fun b r => b.update_pixel r.1 r.2) b) p.2
    { t with image_buffer := b2 })

/-- Tracer::update: reset buffer and timer when the dirty flag is set,
remember whether work is outstanding, do one round of chunk work if so,
clear the flag, return the remembered value. -/
def Tracer.update (t : Tracer) (rng : Rng) : Option (Bool × Tracer) :=
  let t1 := if t.changed then
    { t with image_buffer := t.image_buffer.reset rng, timer := t.timer + 1 }
    else t
  let result := !t1.image_buffer.is_complete
  let next := if t1.image_buffer.is_complete then some t1 else t1.update_buffer rng
  next.map (fun t2 => (result, { t2 with changed := false }))

/-- Modelled from the spec: the default perspective camera built by
TracerBuilder::new via the external gobs Camera::perspective, reduced to
the fields the tracer reads: position (0, 0.2, 0), near 0.1, far 100. -/
def defaultCamera : Camera := ⟨⟨0, 1 / 5, 0⟩, 1 / 10, 100⟩

/-- TracerBuilder from tracer.rs. -/
structure TracerBuilder where
  extent : ImageExtent2D
  models : List Hitable
  lights : List Light
  camera : Camera
  background : Ray → Color
  n_rays : Nat
  n_reflects : Nat
  n_threads : Nat
  strategy : ChunkStrategy

/-- TracerBuilder::default_background: constant black. -/
def TracerBuilder.default_background : Ray → Color := fun _ => Color.BLACK

/-- TracerBuilder::new with the documented defaults. -/
def TracerBuilder.new (extent : ImageExtent2D) : TracerBuilder :=
  ⟨extent, [], [], defaultCamera, TracerBuilder.default_background, 10, 10, 1,
   ChunkStrategy.BOX⟩

/-- Builder setter for the background function. -/
def TracerBuilder.backgroundSet (b : TracerBuilder) (f : Ray → Color) : TracerBuilder :=
  { b with background := f }

/-- Builder setter for the camera. -/
def TracerBuilder.cameraSet (b : TracerBuilder) (c : Camera) : TracerBuilder :=
  { b with camera := c }

/-- Builder light append. -/
def TracerBuilder.light (b : TracerBuilder) (l : Light) : TracerBuilder :=
  { b with lights := b.lights ++ [l] }

/-- Builder model append. -/
def TracerBuilder.model (b : TracerBuilder) (m : Hitable) : TracerBuilder :=
  { b with models := b.models ++ [m] }

/-- Builder setter for rays per pixel. -/
def TracerBuilder.rays (b : TracerBuilder) (n : Nat) : TracerBuilder :=
  { b with n_rays := n }

/-- Builder setter for the bounce budget. -/
def TracerBuilder.reflects (b : TracerBuilder) (n : Nat) : TracerBuilder :=
  { b with n_reflects := n }

/-- Builder setter for the parallelism degree. -/
def TracerBuilder.threads (b : TracerBuilder) (n : Nat) : TracerBuilder :=
  { b with n_threads := n }

/-- Builder setter for the chunk strategy. -/
def TracerBuilder.strategySet (b : TracerBuilder) (s : ChunkStrategy) : TracerBuilder :=
  { b with strategy := s }

/-- TracerBuilder::build: fresh empty image buffer, dirty flag set, fresh
timer. -/
def TracerBuilder.build (b : TracerBuilder) : Tracer :=
  ⟨ImageBuffer.new b.extent b.strategy, b.models, b.lights, b.camera, b.background,
   b.n_rays, b.n_reflects, b.n_threads, true, 0⟩

/-! Basic facts about get_chunk and the update pipeline. -/

theorem random_get_chunk_complete (b : RandomChunk) (h : b.is_complete = true) :
    (ChunkStrategyData.RANDOM b).get_chunk = some ([], ChunkStrategyData.RANDOM b) := by
  obtain ⟨l⟩ := b
  have hl : l = [] := by
    simpa [RandomChunk.is_complete] using h
  subst hl
  rfl

theorem line_get_chunk_complete (b : LineChunk) (h : b.is_complete = true) :
    (ChunkStrategyData.LINE b).get_chunk = some ([], ChunkStrategyData.LINE b) := by
  obtain ⟨l⟩ := b
  have hl : l = [] := by
    simpa [LineChunk.is_complete] using h
  subst hl
  rfl

theorem box_get_chunk_complete (b : BoxChunk) (h : b.is_complete = true) :
    (ChunkStrategyData.BOX b).get_chunk = none := by
  obtain ⟨c0, r0, bs⟩ := b
  have hl : bs = [] := by
    simpa [BoxChunk.is_complete] using h
  subst hl
  rfl

theorem get_chunk_of_not_complete (s : ChunkStrategyData)
    (h : s.is_complete = false) :
    ∃ c s1, s.get_chunk = some (c, s1) ∧ s1.pending < s.pending := by
  cases s with
  | RANDOM b =>
    obtain ⟨l⟩ := b
    cases l with
    | nil => simp [ChunkStrategyData.is_complete, RandomChunk.is_complete] at h
    | cons a rest =>
      refine ⟨_, _, rfl, ?_⟩
      simp only [ChunkStrategyData.pending, RandomChunk.get_chunk, List.length_drop,
        List.length_cons]
      omega
  | LINE b =>
    obtain ⟨l⟩ := b
    cases l with
    | nil => simp [ChunkStrategyData.is_complete, LineChunk.is_complete] at h
    | cons a rest =>
      refine ⟨_, _, rfl, ?_⟩
      simp only [ChunkStrategyData.pending, LineChunk.get_chunk, List.length_drop,
        List.length_cons]
      omega
  | BOX b =>
    obtain ⟨c0, r0, bs⟩ := b
    rcases List.eq_nil_or_concat bs with rfl | ⟨L, a, rfl⟩
    · simp [ChunkStrategyData.is_complete, BoxChunk.is_complete] at h
    · refine ⟨a, ChunkStrategyData.BOX ⟨c0, r0, L⟩, ?_, ?_⟩
      · simp [ChunkStrategyData.get_chunk, BoxChunk.get_chunk, List.concat_eq_append,
          List.getLast?_concat]
      · simp [ChunkStrategyData.pending, List.concat_eq_append]

theorem buffer_get_chunk_of_not_complete (b : ImageBuffer)
    (h : b.is_complete = false) :
    ∃ c b1, b.get_chunk = some (c, b1) := by
  obtain ⟨c, s1, hs, _⟩ := get_chunk_of_not_complete b.strategy h
  exact ⟨c, ⟨b.extent, b.framebuffer, s1⟩, by simp [ImageBuffer.get_chunk, hs]⟩

theorem requestChunks_some (n : Nat) (b : ImageBuffer) :
    ∃ p, requestChunks n b = some p := by
  induction n generalizing b with
  | zero => exact ⟨([], b), rfl⟩
  | succ n ih =>
    by_cases hc : b.is_complete
    · obtain ⟨p, hp⟩ := ih b
      exact ⟨p, by simp [requestChunks, hc, hp]⟩
    · rw [Bool.not_eq_true] at hc
      obtain ⟨c, b1, hg⟩ := buffer_get_chunk_of_not_complete b hc
      obtain ⟨p, hp⟩ := ih b1
      exact ⟨(c :: p.1, p.2), by simp [requestChunks, hc, hg, hp]⟩

theorem update_buffer_some (t : Tracer) (rng : Rng) :
    ∃ b2, t.update_buffer rng = some { t with image_buffer := b2 } := by
  obtain ⟨p, hp⟩ := requestChunks_some t.n_threads t.image_buffer
  refine ⟨List.foldl (fun b result => List.foldl
      (fun b r => b.update_pixel r.1 r.2) b result) p.2
      (List.map (fun chunk => t.compute_chunk chunk rng) p.1), ?_⟩
  simp [Tracer.update_buffer, hp]

/-- Claim C8: when is_complete() is true, get_chunk() on the Random and
Line strategies returns an empty chunk and an unchanged state, while on
the Box strategy it fails (pop on an empty list); in Tracer::update_buffer
every get_chunk() call is guarded by an is_complete() check in the same
iteration, so the chunk request loop, update_buffer and update always
succeed and the Box failure branch is unreachable under that caller. -/
theorem c8_complete_get_chunk :
    (∀ b : RandomChunk, b.is_complete = true →
      (ChunkStrategyData.RANDOM b).get_chunk = some ([], ChunkStrategyData.RANDOM b))
    ∧ (∀ b : LineChunk, b.is_complete = true →
      (ChunkStrategyData.LINE b).get_chunk = some ([], ChunkStrategyData.LINE b))
    ∧ (∀ b : BoxChunk, b.is_complete = true →
      (ChunkStrategyData.BOX b).get_chunk = none)
    ∧ (∀ (n : Nat) (b : ImageBuffer), ∃ p, requestChunks n b = some p)
    ∧ (∀ (t : Tracer) (rng : Rng), ∃ t2, t.update_buffer rng = some t2) := by
  refine ⟨random_get_chunk_complete, line_get_chunk_complete,
    box_get_chunk_complete, requestChunks_some, fun t rng => ?_⟩
  obtain ⟨b2, hb⟩ := update_buffer_some t rng
  exact ⟨_, hb⟩

theorem c8_witness :
    (ChunkStrategyData.RANDOM ⟨[]⟩).get_chunk = some ([], ChunkStrategyData.RANDOM ⟨[]⟩)
    ∧ (ChunkStrategyData.LINE ⟨[]⟩).get_chunk = some ([], ChunkStrategyData.LINE ⟨[]⟩)
    ∧ (ChunkStrategyData.BOX ⟨1, 1, []⟩).get_chunk = none :=
  ⟨c8_complete_get_chunk.1 ⟨[]⟩ rfl, c8_complete_get_chunk.2.1 ⟨[]⟩ rfl,
   c8_complete_get_chunk.2.2.1 ⟨1, 1, []⟩ rfl⟩

/-- Claim C10: a freshly built Tracer, before any update or reset, has an
empty framebuffer and empty bytes; the length invariant
framebuffer.length = extent.size holds from the first reset onward. -/
theorem c10_fresh_buffers_empty (b : TracerBuilder) :
    b.build.framebuffer = [] ∧ b.build.bytes = []
    ∧ ∀ rng : Rng, (b.build.reset rng).framebuffer.length = b.extent.size := by
  refine ⟨rfl, rfl, fun rng => ?_⟩
  simp [TracerBuilder.build, Tracer.reset, Tracer.framebuffer, ImageBuffer.reset,
    ImageBuffer.new]

/-- Claim C6 (part of the end-to-end property): update() on a complete
buffer with a clear dirty flag returns false and leaves the whole tracer
state, in particular every pixel of the framebuffer and the
chunk-strategy state, unchanged. -/
theorem c6_update_noop (t : Tracer) (rng : Rng)
    (hcomp : t.image_buffer.is_complete = true) (hch : t.changed = false) :
    t.update rng = some (false, t) := by
  obtain ⟨ib, ms, ls, cam, bg, nr, nf, nt, ch, tm⟩ := t
  simp only at hch hcomp
  subst hch
  simp [Tracer.update, hcomp]

def tcComplete : Tracer :=
  ⟨⟨⟨1, 1⟩, [Color.BLACK], ChunkStrategyData.LINE ⟨[]⟩⟩, [], [], defaultCamera,
   fun _ => Color.BLACK, 0, 0, 1, false, 0⟩

theorem c6_witness : tcComplete.update idRng = some (false, tcComplete) :=
  c6_update_noop tcComplete idRng rfl rfl

/-- Claim C4, amended: update() resets the buffer and restarts the timer
exactly when the dirty flag is set, clears the dirty flag unconditionally
before returning, and returns whether the buffer has outstanding work
after the conditional reset (which equals the state at entry only when
the flag was clear). -/
theorem c4_update_contract (t : Tracer) (rng : Rng) :
    ∃ t2, t.update rng =
        some (!(if t.changed then t.image_buffer.reset rng
                else t.image_buffer).is_complete, t2)
      ∧ t2.changed = false
      ∧ t2.timer = (if t.changed then t.timer + 1 else t.timer) := by
  obtain ⟨ib, ms, ls, cam, bg, nr, nf, nt, ch, tm⟩ := t
  cases ch with
  | false =>
    by_cases hc : ib.is_complete
    · exact ⟨⟨ib, ms, ls, cam, bg, nr, nf, nt, false, tm⟩,
        by simp [Tracer.update, hc], rfl, by simp⟩
    · rw [Bool.not_eq_true] at hc
      obtain ⟨b2, hb⟩ :=
        update_buffer_some ⟨ib, ms, ls, cam, bg, nr, nf, nt, false, tm⟩ rng
      exact ⟨⟨b2, ms, ls, cam, bg, nr, nf, nt, false, tm⟩,
        by simp [Tracer.update, hc, hb], rfl, by simp⟩
  | true =>
    by_cases hc : (ib.reset rng).is_complete
    · exact ⟨⟨ib.reset rng, ms, ls, cam, bg, nr, nf, nt, false, tm + 1⟩,
        by simp [Tracer.update, hc], rfl, by simp⟩
    · rw [Bool.not_eq_true] at hc
      obtain ⟨b2, hb⟩ :=
        update_buffer_some ⟨ib.reset rng, ms, ls, cam, bg, nr, nf, nt, true, tm + 1⟩ rng
      exact ⟨⟨b2, ms, ls, cam, bg, nr, nf, nt, false, tm + 1⟩,
        by simp [Tracer.update, hc, hb], rfl, by simp⟩

def tcDirtyComplete : Tracer :=
  ⟨⟨⟨1, 1⟩, [Color.BLACK], ChunkStrategyData.LINE ⟨[]⟩⟩, [], [], defaultCamera,
   fun _ => Color.BLACK, 0, 0, 0, true, 0⟩

theorem c4_counterexample :
    tcDirtyComplete.image_buffer.is_complete = true
    ∧ (tcDirtyComplete.update idRng).map Prod.fst = some true := by
  constructor
  · rfl
  · rfl

/-! Claim C9: zero worker threads starve the buffer forever. -/

theorem not_isEmpty_of_length_pos {α : Type} (l : List α) (h : 0 < l.length) :
    l.isEmpty = false := by
  cases l with
  | nil => simp at h
  | cons a rest => rfl

theorem boxesFor_ne_nil (cols rows : Nat) (e : ImageExtent2D)
    (hc : 0 < cols) (hr : 0 < rows) : boxesFor cols rows e ≠ [] := by
  intro hnil
  rw [boxesFor, List.flatMap_eq_nil_iff] at hnil
  have h0 : (0 : Nat) ∈ List.range rows := List.mem_range.mpr hr
  have := hnil 0 h0
  rw [List.map_eq_nil_iff, List.range_eq_nil] at this
  omega

theorem new_reset_not_complete (v : ChunkStrategy) (e : ImageExtent2D) (rng : Rng)
    (hrng : rng.Lawful) (hsize : 0 < e.size) :
    ((ChunkStrategy.new v e).reset e rng).is_complete = false := by
  have hw : 0 < e.width := by
    rcases Nat.eq_zero_or_pos e.width with h | h
    · rw [ImageExtent2D.size, h] at hsize; omega
    · exact h
  have hh : 0 < e.height := by
    rcases Nat.eq_zero_or_pos e.height with h | h
    · rw [ImageExtent2D.size, h] at hsize; simp at hsize
    · exact h
  cases v with
  | RANDOM =>
    have hlen : (rng.shuffleN (List.range e.size)).length = e.size := by
      rw [(hrng.1 _).length_eq, List.length_range]
    simp only [ChunkStrategy.new, ChunkStrategyData.reset, ChunkStrategyData.is_complete,
      RandomChunk.reset, RandomChunk.is_complete]
    exact not_isEmpty_of_length_pos _ (by omega)
  | LINE =>
    simp only [ChunkStrategy.new, ChunkStrategyData.reset, ChunkStrategyData.is_complete,
      LineChunk.reset, LineChunk.is_complete]
    exact not_isEmpty_of_length_pos _ (by simp [hsize])
  | BOX =>
    have hc : 0 < divCeil e.width 128 := by
      rw [divCeil]; omega
    have hr : 0 < divCeil e.height 128 := by
      rw [divCeil]; omega
    have hne := boxesFor_ne_nil (divCeil e.width 128) (divCeil e.height 128) e hc hr
    have hlen : 0 < (rng.shuffleB
        (boxesFor (divCeil e.width 128) (divCeil e.height 128) e)).length := by
      rw [(hrng.2 _).length_eq]
      exact List.length_pos.mpr hne
    simp only [ChunkStrategy.new, ChunkStrategyData.reset, ChunkStrategyData.is_complete,
      BoxChunk.new, BoxChunk.reset, BoxChunk.is_complete]
    exact not_isEmpty_of_length_pos _ hlen

/-- Iterated update, following only the successor state. -/
def updateIter (rng : Rng) : Nat → Tracer → Option Tracer
  | 0, t => some t
  | k + 1, t => (t.update rng).bind (fun p => updateIter rng k p.2)

/-- Claim C9: with n_threads == 0 and a nonzero extent, the first update
resets the buffer via the initial dirty flag and returns true, and the
resulting state is a fixed point: every further update returns true,
keeps the buffer incomplete, and writes no pixel (the framebuffer stays
the freshly reset all-black array), forever. -/
theorem c9_zero_threads_starves (b : TracerBuilder) (rng : Rng)
    (ht : b.n_threads = 0) (hs : 0 < b.extent.size) (hr : rng.Lawful) :
    ∃ t1, b.build.update rng = some (true, t1)
      ∧ t1.image_buffer.is_complete = false
      ∧ t1.framebuffer = List.replicate b.extent.size Color.BLACK
      ∧ t1.update rng = some (true, t1)
      ∧ ∀ k, updateIter rng k t1 = some t1 := by
  obtain ⟨e, ms, ls, cam, bg, nr, nf, nt, strat⟩ := b
  simp only at ht hs
  subst ht
  have hncomp := new_reset_not_complete strat e rng hr hs
  refine ⟨⟨⟨e, List.replicate e.size Color.BLACK, (ChunkStrategy.new strat e).reset e rng⟩,
    ms, ls, cam, bg, nr, nf, 0, false, 1⟩, ?_, ?_, ?_, ?_, ?_⟩
  · simp [TracerBuilder.build, Tracer.update, Tracer.update_buffer, requestChunks,
      ImageBuffer.new, ImageBuffer.reset, ImageBuffer.is_complete, hncomp]
  · simpa [ImageBuffer.is_complete] using hncomp
  · rfl
  · simp [Tracer.update, Tracer.update_buffer, requestChunks,
      ImageBuffer.is_complete, hncomp]
  · intro k
    induction k with
    | zero => rfl
    | succ k ih =>
      have hfix : Tracer.update ⟨⟨e, List.replicate e.size Color.BLACK,
          (ChunkStrategy.new strat e).reset e rng⟩,
          ms, ls, cam, bg, nr, nf, 0, false, 1⟩ rng =
          some (true, ⟨⟨e, List.replicate e.size Color.BLACK,
          (ChunkStrategy.new strat e).reset e rng⟩,
          ms, ls, cam, bg, nr, nf, 0, false, 1⟩) := by
        simp [Tracer.update, Tracer.update_buffer, requestChunks,
          ImageBuffer.is_complete, hncomp]
      rw [updateIter, hfix]
      simpa using ih

/-! List algebra for the partition claims C1, C5 and C7. -/

theorem flatMap_map_swap_perm {α β γ : Type} (A : List α) (B : List β)
    (f : α → β → γ) :
    (A.flatMap (fun a => B.map (f a))).Perm
      (B.flatMap (fun b => A.map (fun a => f a b))) := by
  induction A with
  | nil => simp [List.flatMap_eq_nil_iff]
  | cons a A ih =>
    rw [List.flatMap_cons]
    refine (List.Perm.append_left (B.map (f a)) ih).trans ?_
    exact List.map_append_flatMap_perm B (fun b => f a b)
      (fun b => A.map (fun a1 => f a1 b))

theorem flatMap_flatMap_swap_perm {α β γ : Type} (A : List α) (B : List β)
    (g : α → β → List γ) :
    (A.flatMap (fun a => B.flatMap (g a))).Perm
      (B.flatMap (fun b => A.flatMap (fun a => g a b))) := by
  induction A with
  | nil => simp [List.flatMap_eq_nil_iff]
  | cons a A ih =>
    rw [List.flatMap_cons]
    refine (List.Perm.append_left (B.flatMap (g a)) ih).trans ?_
    exact List.flatMap_append_perm B (g a) (fun b => A.flatMap (fun a1 => g a1 b))

theorem tile_cover (w : Nat) : ∀ k, k ≤ divCeil w 128 →
    (List.range k).flatMap
        (fun i => List.range' (i * 128) (min (i * 128 + 128) w - i * 128)) =
      List.range' 0 (min (k * 128) w) := by
  intro k
  induction k with
  | zero => intro _; simp
  | succ k ih =>
    intro hk
    have hkd : k ≤ divCeil w 128 := Nat.le_of_succ_le hk
    have hlt : k * 128 < w := by
      rw [divCeil] at hk; omega
    rw [List.range_succ, List.flatMap_append, ih hkd, List.flatMap_cons,
      List.flatMap_nil, List.append_nil]
    have hmin : min (k * 128) w = k * 128 := by omega
    rw [hmin]
    have happ := List.range'_append_1 0 (k * 128) (min (k * 128 + 128) w - k * 128)
    rw [Nat.zero_add] at happ
    rw [happ]
    congr 1
    omega

theorem tile_cover_full (w : Nat) :
    (List.range (divCeil w 128)).flatMap
        (fun i => List.range' (i * 128) (min (i * 128 + 128) w - i * 128)) =
      List.range w := by
  rw [tile_cover w (divCeil w 128) le_rfl, List.range_eq_range']
  congr 1
  rw [divCeil]
  omega

theorem grid_eq_range (w : Nat) : ∀ h : Nat,
    (List.range h).flatMap (fun y => (List.range w).map (fun x => x + y * w)) =
      List.range' 0 (h * w) := by
  intro h
  induction h with
  | zero => simp
  | succ h ih =>
    rw [List.range_succ, List.flatMap_append, ih, List.flatMap_cons,
      List.flatMap_nil, List.append_nil]
    have hmap : (List.range w).map (fun x => x + h * w) = List.range' (h * w) w := by
      rw [List.range_eq_range',
        show (fun x => x + h * w) = (fun x => h * w + x) from
          funext (fun x => Nat.add_comm x (h * w)),
        List.map_add_range', Nat.add_zero]
    rw [hmap]
    have happ := List.range'_append_1 0 (h * w) w
    rw [Nat.zero_add] at happ
    rw [happ]
    congr 1
    rw [Nat.succ_mul]
    omega

theorem flatten_flatMap {α β : Type} (l : List α) (f : α → List (List β)) :
    (l.flatMap f).flatten = l.flatMap (fun a => (f a).flatten) := by
  induction l with
  | nil => rfl
  | cons a l ih => rw [List.flatMap_cons, List.flatten_append, ih, List.flatMap_cons]

theorem boxesFor_flatten_perm (e : ImageExtent2D) :
    ((boxesFor (divCeil e.width 128) (divCeil e.height 128) e).flatten).Perm
      (List.range e.size) := by
  rw [boxesFor, flatten_flatMap]
  have hinner : ∀ j, ((List.range (divCeil e.width 128)).map
      (fun i => boxTile e i j)).flatten =
      (List.range (divCeil e.width 128)).flatMap (fun i => boxTile e i j) := by
    intro j
    rw [List.flatMap_def]
  rw [show (fun j => ((List.range (divCeil e.width 128)).map
        (fun i => boxTile e i j)).flatten) =
      (fun j => (List.range (divCeil e.width 128)).flatMap (fun i => boxTile e i j))
    from funext hinner]
  have step1 : ∀ j, ((List.range (divCeil e.width 128)).flatMap
        (fun i => boxTile e i j)).Perm
      ((List.range' (j * 128) (min (j * 128 + 128) e.height - j * 128)).flatMap
        (fun y => (List.range e.width).map (fun x => x + y * e.width))) := by
    intro j
    have hswap1 : ∀ i ∈ List.range (divCeil e.width 128),
        (boxTile e i j).Perm
          ((List.range' (j * 128) (min (j * 128 + 128) e.height - j * 128)).flatMap
            (fun y => (List.range' (i * 128) (min (i * 128 + 128) e.width - i * 128)).map
              (fun x => x + y * e.width))) := by
      intro i _
      exact flatMap_map_swap_perm _ _ (fun x y => x + y * e.width)
    refine (List.Perm.flatMap_left _ hswap1).trans ?_
    refine (flatMap_flatMap_swap_perm _ _ _).trans ?_
    have hmapout : ∀ y, ((List.range (divCeil e.width 128)).flatMap
        (fun i => (List.range' (i * 128) (min (i * 128 + 128) e.width - i * 128)).map
          (fun x => x + y * e.width))) =
        (List.range e.width).map (fun x => x + y * e.width) := by
      intro y
      rw [← List.map_flatMap, tile_cover_full]
    rw [show (fun y => (List.range (divCeil e.width 128)).flatMap
        (fun i => (List.range' (i * 128) (min (i * 128 + 128) e.width - i * 128)).map
          (fun x => x + y * e.width))) =
        (fun y => (List.range e.width).map (fun x => x + y * e.width)) from
      funext hmapout]
  refine (List.Perm.flatMap_left _ (fun j _ => step1 j)).trans ?_
  rw [← List.flatMap_assoc, tile_cover_full, grid_eq_range, List.range_eq_range',
    ImageExtent2D.size, Nat.mul_comm]

theorem drainAux_random_flatten : ∀ (fuel : Nat) (l : List Nat), l.length ≤ fuel →
    (drainAux fuel (ChunkStrategyData.RANDOM ⟨l⟩)).flatten = l := by
  intro fuel
  induction fuel with
  | zero =>
    intro l hl
    have hnil : l = [] := List.eq_nil_of_length_eq_zero (Nat.le_zero.mp hl)
    subst hnil
    rfl
  | succ fuel ih =>
    intro l hl
    cases l with
    | nil => rfl
    | cons a rest =>
      rw [drainAux]
      simp only [ChunkStrategyData.is_complete, RandomChunk.is_complete,
        List.isEmpty_cons, Bool.false_eq_true, if_false, ChunkStrategyData.get_chunk,
        RandomChunk.get_chunk]
      rw [List.flatten_cons]
      rw [ih _ (by simp only [List.length_drop, List.length_cons] at hl ⊢; omega)]
      exact List.take_append_drop _ _

theorem drainAux_line_flatten : ∀ (fuel : Nat) (l : List Nat), l.length ≤ fuel →
    (drainAux fuel (ChunkStrategyData.LINE ⟨l⟩)).flatten = l := by
  intro fuel
  induction fuel with
  | zero =>
    intro l hl
    have hnil : l = [] := List.eq_nil_of_length_eq_zero (Nat.le_zero.mp hl)
    subst hnil
    rfl
  | succ fuel ih =>
    intro l hl
    cases l with
    | nil => rfl
    | cons a rest =>
      rw [drainAux]
      simp only [ChunkStrategyData.is_complete, LineChunk.is_complete,
        List.isEmpty_cons, Bool.false_eq_true, if_false, ChunkStrategyData.get_chunk,
        LineChunk.get_chunk]
      rw [List.flatten_cons]
      rw [ih _ (by simp only [List.length_drop, List.length_cons] at hl ⊢; omega)]
      exact List.take_append_drop _ _

theorem drainAux_box_flatten : ∀ (fuel c r : Nat) (bs : List (List Nat)),
    bs.length ≤ fuel →
    ((drainAux fuel (ChunkStrategyData.BOX ⟨c, r, bs⟩)).flatten).Perm bs.flatten := by
  intro fuel
  induction fuel with
  | zero =>
    intro c r bs hl
    have hnil : bs = [] := List.eq_nil_of_length_eq_zero (Nat.le_zero.mp hl)
    subst hnil
    exact List.Perm.refl _
  | succ fuel ih =>
    intro c r bs hl
    rcases List.eq_nil_or_concat bs with rfl | ⟨L, a, rfl⟩
    · exact List.Perm.refl _
    · rw [List.concat_eq_append] at hl ⊢
      rw [drainAux]
      have hcomp : (ChunkStrategyData.BOX ⟨c, r, L ++ [a]⟩).is_complete = false := by
        simp [ChunkStrategyData.is_complete, BoxChunk.is_complete]
      rw [hcomp]
      have hget : (ChunkStrategyData.BOX ⟨c, r, L ++ [a]⟩).get_chunk =
          some (a, ChunkStrategyData.BOX ⟨c, r, L⟩) := by
        simp [ChunkStrategyData.get_chunk, BoxChunk.get_chunk, List.getLast?_concat]
      rw [hget]
      simp only [List.flatten_cons]
      have hlen : L.length ≤ fuel := by
        simp only [List.length_append, List.length_cons, List.length_nil] at hl
        omega
      refine (List.Perm.append_left a (ih c r L hlen)).trans ?_
      refine (List.perm_append_comm).trans ?_
      rw [List.flatten_append]
      simp

/-- Claim C1: for every extent and every strategy variant, draining the
strategy with get_chunk() after reset() until is_complete() yields chunks
whose concatenation is a permutation of the full index set
0..width*height-1: the union is everything, no index is repeated inside a
chunk, and no index occurs in two chunks. -/
theorem c1_partition_complete (e : ImageExtent2D) (v : ChunkStrategy) (rng : Rng)
    (hrng : rng.Lawful) :
    ((((ImageBuffer.new e v).reset rng).strategy.drain).flatten).Perm
      (List.range e.size) := by
  cases v with
  | RANDOM =>
    show ((ChunkStrategyData.RANDOM ⟨rng.shuffleN (List.range e.size)⟩).drain).flatten.Perm _
    rw [ChunkStrategyData.drain]
    simp only [ChunkStrategyData.pending]
    rw [drainAux_random_flatten _ _ le_rfl]
    exact hrng.1 _
  | LINE =>
    show ((ChunkStrategyData.LINE ⟨List.range e.size⟩).drain).flatten.Perm _
    rw [ChunkStrategyData.drain]
    simp only [ChunkStrategyData.pending]
    rw [drainAux_line_flatten _ _ le_rfl]
  | BOX =>
    show ((ChunkStrategyData.BOX ⟨divCeil e.width 128, divCeil e.height 128,
      rng.shuffleB (boxesFor (divCeil e.width 128) (divCeil e.height 128) e)⟩).drain).flatten.Perm _
    rw [ChunkStrategyData.drain]
    simp only [ChunkStrategyData.pending]
    refine (drainAux_box_flatten _ _ _ _ le_rfl).trans ?_
    exact ((hrng.2 _).flatten).trans (boxesFor_flatten_perm e)

theorem c1_witness :
    ((((ImageBuffer.new ⟨2, 2⟩ ChunkStrategy.LINE).reset idRng).strategy.drain).flatten).Perm
      (List.range (ImageExtent2D.size ⟨2, 2⟩)) :=
  c1_partition_complete ⟨2, 2⟩ ChunkStrategy.LINE idRng idRng_lawful

/-! Claim C7: the 130 x 128 Box tiling edge case. -/

theorem sum_replicate_nat (n x : Nat) : (List.replicate n x).sum = n * x := by
  induction n with
  | zero => simp
  | succ n ih =>
    rw [List.replicate_succ, List.sum_cons, ih, Nat.succ_mul]
    omega

theorem boxTile_length (e : ImageExtent2D) (i j : Nat) :
    (boxTile e i j).length =
      (min (i * 128 + 128) e.width - i * 128) *
        (min (j * 128 + 128) e.height - j * 128) := by
  rw [boxTile, List.length_flatMap]
  have hconst : (List.map (List.length ∘ fun x =>
      (List.range' (j * 128) (min (j * 128 + 128) e.height - j * 128)).map
        (fun y => x + y * e.width))
      (List.range' (i * 128) (min (i * 128 + 128) e.width - i * 128))) =
      List.replicate (min (i * 128 + 128) e.width - i * 128)
        (min (j * 128 + 128) e.height - j * 128) := by
    rw [show (List.length ∘ fun x =>
        (List.range' (j * 128) (min (j * 128 + 128) e.height - j * 128)).map
          (fun y => x + y * e.width)) =
        (fun _ : Nat => min (j * 128 + 128) e.height - j * 128) from
      funext (fun x => by simp)]
    rw [List.map_const', List.length_range']
  rw [hconst, sum_replicate_nat]

/-- Claim C7: for extent 130 x 128 with the Box strategy, reset produces
exactly 2 tile columns and 1 tile row; the dealt tiles are a permutation
of the column-0 tile (128 pixels wide) and the column-1 tile (2 pixels
wide), both 128 pixels tall, and the union of all tile pixel-index sets
is exactly the index set 0..130*128-1. -/
theorem c7_box_tiling_edge (rng : Rng) (hrng : rng.Lawful) :
    ∃ bc : BoxChunk,
      ((ImageBuffer.new ⟨130, 128⟩ ChunkStrategy.BOX).reset rng).strategy =
        ChunkStrategyData.BOX bc
      ∧ bc.cols = 2 ∧ bc.rows = 1
      ∧ (bc.draw_boxes).Perm [boxTile ⟨130, 128⟩ 0 0, boxTile ⟨130, 128⟩ 1 0]
      ∧ (boxTile ⟨130, 128⟩ 0 0).length = 128 * 128
      ∧ (boxTile ⟨130, 128⟩ 1 0).length = 2 * 128
      ∧ ((bc.draw_boxes).flatten).Perm (List.range (130 * 128)) := by
  refine ⟨⟨2, 1, rng.shuffleB (boxesFor 2 1 ⟨130, 128⟩)⟩, ?_, rfl, rfl, ?_, ?_, ?_, ?_⟩
  · show ChunkStrategyData.BOX ((BoxChunk.new ⟨130, 128⟩).reset ⟨130, 128⟩ rng) = _
    rw [show BoxChunk.new ⟨130, 128⟩ = ⟨2, 1, []⟩ from by
      rw [BoxChunk.new]; norm_num [divCeil]]
    rfl
  · refine (hrng.2 _).trans ?_
    rw [show boxesFor 2 1 ⟨130, 128⟩ =
      [boxTile ⟨130, 128⟩ 0 0, boxTile ⟨130, 128⟩ 1 0] from rfl]
  · rw [boxTile_length]
    norm_num
  · rw [boxTile_length]
    norm_num
  · refine ((hrng.2 _).flatten).trans ?_
    have h1 : divCeil (130 : Nat) 128 = 2 := by norm_num [divCeil]
    have h2 : divCeil (128 : Nat) 128 = 1 := by norm_num [divCeil]
    have := boxesFor_flatten_perm ⟨130, 128⟩
    rw [h1, h2] at this
    exact this

theorem c7_witness :
    ∃ bc : BoxChunk,
      ((ImageBuffer.new ⟨130, 128⟩ ChunkStrategy.BOX).reset idRng).strategy =
        ChunkStrategyData.BOX bc
      ∧ bc.cols = 2 ∧ bc.rows = 1
      ∧ (bc.draw_boxes).Perm [boxTile ⟨130, 128⟩ 0 0, boxTile ⟨130, 128⟩ 1 0]
      ∧ (boxTile ⟨130, 128⟩ 0 0).length = 128 * 128
      ∧ (boxTile ⟨130, 128⟩ 1 0).length = 2 * 128
      ∧ ((bc.draw_boxes).flatten).Perm (List.range (130 * 128)) :=
  c7_box_tiling_edge idRng idRng_lawful

/-! Claim C5: the shape of the Line strategy chunks. -/

theorem drop_range' : ∀ (j a n : Nat), (List.range' a n).drop j = List.range' (a + j) (n - j) := by
  intro j
  induction j with
  | zero => intro a n; simp
  | succ j ih =>
    intro a n
    cases n with
    | zero => simp
    | succ n0 =>
      rw [List.range'_succ, List.drop_succ_cons, ih (a + 1) n0]
      congr 1
      · omega
      · omega

theorem take_range' : ∀ (j a n : Nat), (List.range' a n).take j = List.range' a (min j n) := by
  intro j
  induction j with
  | zero => intro a n; simp
  | succ j ih =>
    intro a n
    cases n with
    | zero => simp
    | succ n0 =>
      rw [List.range'_succ, List.take_succ_cons, ih (a + 1) n0,
        show min (j + 1) (n0 + 1) = (min j n0) + 1 from by omega, List.range'_succ]

theorem drainAux_line_step (fuel : Nat) (l : List Nat) (hne : l ≠ []) :
    drainAux (fuel + 1) (ChunkStrategyData.LINE ⟨l⟩) =
      l.take (min 1920 l.length) ::
        drainAux fuel (ChunkStrategyData.LINE ⟨l.drop (min 1920 l.length)⟩) := by
  have hcomp : (ChunkStrategyData.LINE ⟨l⟩).is_complete = false := by
    cases l with
    | nil => exact absurd rfl hne
    | cons a rest => rfl
  rw [drainAux, hcomp]
  rfl

theorem drainAux_line_getElem : ∀ (fuel : Nat) (l : List Nat) (k : Nat),
    l.length ≤ fuel →
    (drainAux fuel (ChunkStrategyData.LINE ⟨l⟩))[k]? =
      (if 1920 * k < l.length then some ((l.drop (1920 * k)).take 1920) else none) := by
  intro fuel
  induction fuel with
  | zero =>
    intro l k hl
    have hnil : l = [] := List.eq_nil_of_length_eq_zero (Nat.le_zero.mp hl)
    subst hnil
    simp [drainAux]
  | succ fuel ih =>
    intro l k hl
    cases l with
    | nil =>
      simp [drainAux, ChunkStrategyData.is_complete, LineChunk.is_complete]
    | cons a rest =>
      rw [drainAux_line_step fuel (a :: rest) (by simp)]
      cases k with
      | zero =>
        rw [List.getElem?_cons_zero, Nat.mul_zero, List.drop_zero,
          if_pos (by simp)]
        congr 1
        rcases le_total 1920 (a :: rest).length with hle | hle
        · rw [min_eq_left hle]
        · rw [min_eq_right hle, List.take_length,
            List.take_of_length_le hle]
      | succ k0 =>
        rw [List.getElem?_cons_succ]
        rw [ih _ k0 (by simp only [List.length_drop, List.length_cons] at hl ⊢; omega)]
        by_cases hbig : (1920 : Nat) ≤ (a :: rest).length
        · have hm : min 1920 (a :: rest).length = 1920 := by omega
          rw [hm, List.drop_drop, List.length_drop]
          by_cases hlt : 1920 * (k0 + 1) < (a :: rest).length
          · rw [if_pos (by omega), if_pos hlt,
              show (1920 : Nat) + 1920 * k0 = 1920 * (k0 + 1) from by ring]
          · rw [if_neg (by omega), if_neg hlt]
        · have hm : min 1920 (a :: rest).length = (a :: rest).length := by omega
          rw [hm, List.drop_length]
          rw [if_neg (by simp), if_neg (by
            simp only [Nat.mul_succ]
            omega)]

theorem line_drain_getElem (e : ImageExtent2D) (rng : Rng) (k : Nat) :
    ((((ImageBuffer.new e ChunkStrategy.LINE).reset rng).strategy.drain))[k]? =
      (if 1920 * k < e.size then
        some (List.range' (1920 * k) (min 1920 (e.size - 1920 * k))) else none) := by
  show ((ChunkStrategyData.LINE ⟨List.range e.size⟩).drain)[k]? = _
  rw [ChunkStrategyData.drain]
  simp only [ChunkStrategyData.pending]
  rw [drainAux_line_getElem _ _ _ le_rfl]
  by_cases hlt : 1920 * k < e.size
  · rw [if_pos (by simpa using hlt), if_pos hlt]
    congr 1
    rw [List.range_eq_range', drop_range', take_range', Nat.zero_add]
  · rw [if_neg (by simpa using hlt), if_neg hlt]

/-- Claim C5, amended: after reset(extent) on the Line strategy the k-th
get_chunk() returns the contiguous ascending run of indices starting at
1920*k with length min(1920, remaining): every call before the last
returns exactly 1920 indices (the fixed constant PIXEL_PER_CHUNK = 1920,
not the extent row width) and the last call returns the remaining tail. -/
theorem c5_line_chunks (e : ImageExtent2D) (rng : Rng) (k : Nat) :
    ((((ImageBuffer.new e ChunkStrategy.LINE).reset rng).strategy.drain))[k]? =
      (if 1920 * k < e.size then
        some (List.range' (1920 * k) (min 1920 (e.size - 1920 * k))) else none) :=
  line_drain_getElem e rng k

theorem c5_counterexample :
    ((((ImageBuffer.new ⟨1, 1922⟩ ChunkStrategy.LINE).reset idRng).strategy.drain)).length = 2
    ∧ (((((ImageBuffer.new ⟨1, 1922⟩ ChunkStrategy.LINE).reset
        idRng).strategy.drain))[0]?).map List.length = some 1920
    ∧ (ImageExtent2D.width ⟨1, 1922⟩) = 1 := by
  have h0 := line_drain_getElem ⟨1, 1922⟩ idRng 0
  have h1 := line_drain_getElem ⟨1, 1922⟩ idRng 1
  have h2 := line_drain_getElem ⟨1, 1922⟩ idRng 2
  rw [if_pos (by norm_num [ImageExtent2D.size])] at h0
  rw [if_pos (by norm_num [ImageExtent2D.size])] at h1
  rw [if_neg (by norm_num [ImageExtent2D.size])] at h2
  refine ⟨?_, ?_, rfl⟩
  · have hlen2 := List.getElem?_eq_none_iff.mp h2
    have hlen1 : ¬ ((((ImageBuffer.new ⟨1, 1922⟩ ChunkStrategy.LINE).reset
        idRng).strategy.drain)).length ≤ 1 := by
      intro hle
      rw [List.getElem?_eq_none (by omega)] at h1
      exact Option.noConfusion h1
    omega
  · rw [h0]
    simp [ImageExtent2D.size]

/-! Claims C2 and C3: the shading policy of Tracer::cast. -/

/-- Spec-side visibility predicate for one light: the shadow ray from the
hit position toward the light is tested against all models with the cheap
hit_distance query, and no model reports a blocking intersection. -/
def lightUnblocked (t : Tracer) (p : Vec3) (light : Light) : Bool :=
  t.models.all (fun m =>
    (m.hit_distance (Ray.new p (light.position - p)) t.camera.near
      t.camera.far).isNone)

theorem lightUnblocked_iff_find_none (t : Tracer) (p : Vec3) (light : Light) :
    lightUnblocked t p light = true ↔
      t.models.find? (fun m =>
        (m.hit_distance (Ray.new p (light.position - p)) t.camera.near
          t.camera.far).isSome) = none := by
  rw [lightUnblocked, List.all_eq_true, List.find?_eq_none]
  refine forall_congr' (fun m => forall_congr' (fun hm => ?_))
  cases hd : m.hit_distance (Ray.new p (light.position - p)) t.camera.near
      t.camera.far with
  | none => simp
  | some d => simp

theorem shadeLoop_eq_any (t : Tracer) (p : Vec3) (blend : Color) (lights : List Light) :
    t.shadeLoop p blend lights =
      (if lights.any (lightUnblocked t p) then blend else blend * (1 / 2 : ℚ)) := by
  induction lights with
  | nil => simp [Tracer.shadeLoop]
  | cons light rest ih =>
    rw [Tracer.shadeLoop]
    by_cases hf : t.models.find? (fun m =>
        (m.hit_distance (Ray.new p (light.position - p)) t.camera.near
          t.camera.far).isSome) = none
    · have hu : lightUnblocked t p light = true :=
        (lightUnblocked_iff_find_none t p light).mpr hf
      rw [hf]
      simp [List.any_cons, hu]
    · have hu : lightUnblocked t p light = false := by
        rcases hb : lightUnblocked t p light with _ | _
        · rfl
        · exact absurd ((lightUnblocked_iff_find_none t p light).mp hb) hf
      obtain ⟨m, hm⟩ := Option.ne_none_iff_exists.mp hf
      rw [← hm]
      simp only [List.any_cons, hu, Bool.false_or]
      exact ih

/-- Claim C2: for a positive bounce budget and a found hit, the lights
are scanned for one whose shadow ray (from the hit position toward the
light, tested against all models with hit_distance) is unblocked; if one
exists the result is the blend local*(1-reflect) + reflection*reflect at
full weight, and if every light is blocked (including the zero-light
case) the same blend is scaled by the flat constant 0.5. -/
theorem c2_shadow_blend (t : Tracer) (ray : Ray) (n : Nat) (h : Hit)
    (hmin : minByDistance (t.hitCandidates ray) = some h) :
    t.cast (n + 1) ray =
      (if t.lights.any (lightUnblocked t h.position)
       then h.color * (1 - h.reflect) +
         t.cast n (ray.reflect h.position h.normal) * h.reflect
       else (h.color * (1 - h.reflect) +
         t.cast n (ray.reflect h.position h.normal) * h.reflect) * (1 / 2 : ℚ)) := by
  rw [show t.cast (n + 1) ray =
      (match minByDistance (t.hitCandidates ray) with
       | some h =>
         t.shadeLoop h.position (h.color * (1 - h.reflect) +
           t.cast n (ray.reflect h.position h.normal) * h.reflect) t.lights
       | none => t.background ray) from rfl]
  rw [hmin]
  exact shadeLoop_eq_any t h.position _ t.lights

def hitW : Hit := ⟨1, ⟨0, 0, 0⟩, ⟨0, 1, 0⟩, ⟨1, 0, 0, 1⟩, 1 / 4⟩

def modelW : Hitable := ⟨fun _ _ _ => some hitW, fun _ _ _ => some 1⟩

def rayW : Ray := ⟨⟨0, 0, -5⟩, ⟨0, 0, 1⟩⟩

def tw2 : Tracer :=
  ⟨⟨⟨1, 1⟩, [], ChunkStrategyData.LINE ⟨[]⟩⟩, [modelW], [], defaultCamera,
   fun _ => Color.BLACK, 1, 1, 1, false, 0⟩

theorem c2_witness :
    tw2.cast (0 + 1) rayW =
      (if tw2.lights.any (lightUnblocked tw2 hitW.position)
       then hitW.color * (1 - hitW.reflect) +
         tw2.cast 0 (rayW.reflect hitW.position hitW.normal) * hitW.reflect
       else (hitW.color * (1 - hitW.reflect) +
         tw2.cast 0 (rayW.reflect hitW.position hitW.normal) * hitW.reflect)
           * (1 / 2 : ℚ)) :=
  c2_shadow_blend tw2 rayW 0 hitW rfl

theorem foldMin_of_acc_min (acc : Hit) (l : List Hit)
    (hacc : ∀ x ∈ l, acc.distance ≤ x.distance) : foldMin acc l = acc := by
  induction l with
  | nil => rfl
  | cons x rest ih =>
    rw [foldMin, if_neg (not_lt.mpr (hacc x (List.mem_cons_self x rest)))]
    exact ih (fun y hy => hacc y (List.mem_cons_of_mem x hy))

theorem foldMin_first_min (l : List Hit) (acc : Hit) (k : Nat) (hk : k < l.length)
    (hacc : (l.get ⟨k, hk⟩).distance < acc.distance)
    (hmin : ∀ (j : Nat) (hj : j < l.length),
      (l.get ⟨k, hk⟩).distance ≤ (l.get ⟨j, hj⟩).distance)
    (hfirst : ∀ (j : Nat) (hj : j < l.length), j < k →
      (l.get ⟨k, hk⟩).distance < (l.get ⟨j, hj⟩).distance) :
    foldMin acc l = l.get ⟨k, hk⟩ := by
  induction l generalizing acc k with
  | nil => simp at hk
  | cons x rest ih =>
    rw [foldMin]
    cases k with
    | zero =>
      have hacc0 : x.distance < acc.distance := hacc
      rw [if_pos hacc0]
      show foldMin x rest = x
      apply foldMin_of_acc_min
      intro y hy
      obtain ⟨⟨j, hj⟩, rfl⟩ := List.mem_iff_get.mp hy
      exact hmin (j + 1) (by simpa using hj)
    | succ k0 =>
      have hk0 : k0 < rest.length := by simpa using hk
      have hxlt : (rest.get ⟨k0, hk0⟩).distance < x.distance :=
        hfirst 0 (by simp) (Nat.succ_pos k0)
      have hacc1 : (rest.get ⟨k0, hk0⟩).distance <
          (if x.distance < acc.distance then x else acc).distance := by
        by_cases hxa : x.distance < acc.distance
        · rw [if_pos hxa]; exact hxlt
        · rw [if_neg hxa]; exact hacc
      show foldMin (if x.distance < acc.distance then x else acc) rest =
        rest.get ⟨k0, hk0⟩
      refine ih _ k0 hk0 hacc1 ?_ ?_
      · intro j hj
        exact hmin (j + 1) (by simpa using hj)
      · intro j hj hjk
        exact hfirst (j + 1) (by simpa using hj) (by omega)

theorem minByDistance_first_min (l : List Hit) (k : Nat) (hk : k < l.length)
    (hmin : ∀ (j : Nat) (hj : j < l.length),
      (l.get ⟨k, hk⟩).distance ≤ (l.get ⟨j, hj⟩).distance)
    (hfirst : ∀ (j : Nat) (hj : j < l.length), j < k →
      (l.get ⟨k, hk⟩).distance < (l.get ⟨j, hj⟩).distance) :
    minByDistance l = some (l.get ⟨k, hk⟩) := by
  cases l with
  | nil => simp at hk
  | cons a rest =>
    rw [minByDistance]
    congr 1
    cases k with
    | zero =>
      show foldMin a rest = a
      apply foldMin_of_acc_min
      intro y hy
      obtain ⟨⟨j, hj⟩, rfl⟩ := List.mem_iff_get.mp hy
      exact hmin (j + 1) (by simpa using hj)
    | succ k0 =>
      have hk0 : k0 < rest.length := by simpa using hk
      have hxlt : (rest.get ⟨k0, hk0⟩).distance < a.distance :=
        hfirst 0 (by simp) (Nat.succ_pos k0)
      show foldMin a rest = rest.get ⟨k0, hk0⟩
      refine foldMin_first_min rest a k0 hk0 hxlt ?_ ?_
      · intro j hj
        exact hmin (j + 1) (by simpa using hj)
      · intro j hj hjk
        exact hfirst (j + 1) (by simpa using hj) (by omega)

/-- Claim C3: with a positive bounce budget, the hit shaded by cast is
the candidate hit of smallest distance, with ties won by the earlier
model in the list (the selected hit is strictly smaller than every
earlier candidate and no larger than every candidate); when no model
reports a hit, cast returns the background function applied to the ray. -/
theorem c3_nearest_hit (t : Tracer) (ray : Ray) (n : Nat) :
    (t.hitCandidates ray = [] → t.cast (n + 1) ray = t.background ray)
    ∧ ∀ (k : Nat) (hk : k < (t.hitCandidates ray).length),
      (∀ (j : Nat) (hj : j < (t.hitCandidates ray).length),
        ((t.hitCandidates ray).get ⟨k, hk⟩).distance ≤
          ((t.hitCandidates ray).get ⟨j, hj⟩).distance) →
      (∀ (j : Nat) (hj : j < (t.hitCandidates ray).length), j < k →
        ((t.hitCandidates ray).get ⟨k, hk⟩).distance <
          ((t.hitCandidates ray).get ⟨j, hj⟩).distance) →
      t.cast (n + 1) ray =
        t.shadeLoop ((t.hitCandidates ray).get ⟨k, hk⟩).position
          (((t.hitCandidates ray).get ⟨k, hk⟩).color *
              (1 - ((t.hitCandidates ray).get ⟨k, hk⟩).reflect) +
            t.cast n (ray.reflect ((t.hitCandidates ray).get ⟨k, hk⟩).position
              ((t.hitCandidates ray).get ⟨k, hk⟩).normal) *
              ((t.hitCandidates ray).get ⟨k, hk⟩).reflect)
          t.lights := by
  constructor
  · intro hnil
    rw [show t.cast (n + 1) ray =
        (match minByDistance (t.hitCandidates ray) with
         | some h =>
           t.shadeLoop h.position (h.color * (1 - h.reflect) +
             t.cast n (ray.reflect h.position h.normal) * h.reflect) t.lights
         | none => t.background ray) from rfl]
    rw [hnil]
    rfl
  · intro k hk hmin hfirst
    rw [show t.cast (n + 1) ray =
        (match minByDistance (t.hitCandidates ray) with
         | some h =>
           t.shadeLoop h.position (h.color * (1 - h.reflect) +
             t.cast n (ray.reflect h.position h.normal) * h.reflect) t.lights
         | none => t.background ray) from rfl]
    rw [minByDistance_first_min (t.hitCandidates ray) k hk hmin hfirst]

def hitFar : Hit := ⟨2, ⟨0, 0, 2⟩, ⟨0, 0, -1⟩, ⟨0, 1, 0, 1⟩, 0⟩

def hitNear : Hit := ⟨1, ⟨0, 0, 1⟩, ⟨0, 0, -1⟩, ⟨0, 0, 1, 1⟩, 0⟩

def tw3 : Tracer :=
  ⟨⟨⟨1, 1⟩, [], ChunkStrategyData.LINE ⟨[]⟩⟩,
   [⟨fun _ _ _ => some hitFar, fun _ _ _ => none⟩,
    ⟨fun _ _ _ => some hitNear, fun _ _ _ => none⟩],
   [], defaultCamera, fun _ => Color.BLACK, 1, 1, 1, false, 0⟩

theorem c3_witness :
    tw3.cast (0 + 1) rayW =
      tw3.shadeLoop hitNear.position
        (hitNear.color * (1 - hitNear.reflect) +
          tw3.cast 0 (rayW.reflect hitNear.position hitNear.normal) * hitNear.reflect)
        tw3.lights :=
  (c3_nearest_hit tw3 rayW 0).2 1 (by decide) (by decide) (by decide)

theorem c9_witness :
    ∃ t1, ((TracerBuilder.new ⟨1, 1⟩).threads 0).build.update idRng = some (true, t1)
      ∧ t1.image_buffer.is_complete = false
      ∧ t1.framebuffer =
          List.replicate (ImageExtent2D.size ⟨1, 1⟩) Color.BLACK
      ∧ t1.update idRng = some (true, t1)
      ∧ ∀ k, updateIter idRng k t1 = some t1 :=
  c9_zero_threads_starves ((TracerBuilder.new ⟨1, 1⟩).threads 0) idRng rfl
    (by decide) idRng_lawful

end RT
